import Mathlib

/-!
Verification of the Pyrogram `Client` core (`pyrogram/client/client.py`)
against its natural-language specification.

Each section shallowly embeds one part of the source file:

* the updates worker's per-channel pts dedup history (`updates_worker`,
  lines 990-1002) and its short-message branch (lines 1003-1023);
* session persistence (`save_session` / `load_session`), including the
  base64 encoding and 43-character hard wrapping of the auth key;
* the peer directory (`fetch_peers` / `resolve_peer`);
* the transfer engine (`save_file` / `get_file`, incl. the CDN path);
* the `start` state restoration on failure.

Machine integers are modelled as `Int` / `Nat` (Python integers are
unbounded, so no wrap-around is needed); bytes are `Nat`s below 256;
network interactions are oracle parameters (functions or event traces).
-/

set_option autoImplicit false
set_option maxRecDepth 10000

namespace Pyrogram

/-! ## Updates worker: per-channel pts history (client.py lines 990-1002)

Source:
```
if channel_id and pts:
    if channel_id not in self.channels_pts:
        self.channels_pts[channel_id] = []
    if pts in self.channels_pts[channel_id]:
        continue
    self.channels_pts[channel_id].append(pts)
    if len(self.channels_pts[channel_id]) > 50:
        self.channels_pts[channel_id] = self.channels_pts[channel_id][25:]
self.dispatcher.updates_queue.put_nowait((update, ...))
```
`feedPts` processes one `(channel, pts)` observation against that channel's
history list; the returned `Bool` is `true` exactly when the update is
delivered downstream (`put_nowait` reached), `false` when the `continue`
skips it. -/

def feedPts (history : List Int) (pts : Int) : List Int × Bool :=
  if pts ∈ history then
    (history, false)
  else
    let h := history ++ [pts]
    (if h.length > 50 then h.drop 25 else h, true)

/-- The `self.channels_pts` dict, modelled as a total map with the
`if channel_id not in self.channels_pts: ... = []` default folded in.
One observed `(channel_id, pts)` pair updates only that channel's history;
the `Bool` is `true` iff the update is delivered downstream. -/
def channelsPtsStep (m : Int → List Int) (cid pts : Int) : (Int → List Int) × Bool :=
  let r := feedPts (m cid) pts
  (fun c => if c = cid then r.1 else m c, r.2)

/-- Feed a list of `(channel_id, pts)` observations; returns the final
map together with the number of updates delivered downstream. -/
def channelsPtsRun (m : Int → List Int) : List (Int × Int) → (Int → List Int) × Nat
  | [] => (m, 0)
  | cp :: rest =>
    let r := channelsPtsStep m cp.1 cp.2
    let r2 := channelsPtsRun r.1 rest
    (r2.1, (if r.2 then 1 else 0) + r2.2)

/-- The 60 distinct pts values 1..60 used as a concrete experiment. -/
def sixtyDistinctPts : List Int := (List.range 60).map (fun n => (n : Int) + 1)

theorem feedPts_mem (history : List Int) (pts : Int) :
    pts ∈ (feedPts history pts).1 := by
  unfold feedPts
  by_cases h : pts ∈ history
  · simp [h]
  · simp only [h, if_neg, ite_false]
    split
    · rename_i hlen
      have hge : 25 ≤ history.length := by
        simp [List.length_append] at hlen
        omega
      rw [List.drop_append_of_le_length hge]
      simp
    · simp

theorem feedPts_dup (history : List Int) (pts : Int) (h : pts ∈ history) :
    feedPts history pts = (history, false) := by
  simp [feedPts, h]

theorem feedPts_new (history : List Int) (pts : Int) (h : pts ∉ history) :
    (feedPts history pts).2 = true := by
  simp [feedPts, h]

theorem feedPts_trim (history : List Int) (pts : Int) (h : pts ∉ history)
    (hlen : history.length = 50) : (feedPts history pts).1.length = 26 := by
  simp [feedPts, h, hlen]

/-- C1, counterexample: feeding 60 distinct pts values for one channel does
NOT leave 25 entries in the per-channel history (it leaves 35: the trim to
`[25:]` fires once, at length 51, keeping 26 entries, and the remaining 9
feeds append). -/
theorem channels_pts_sixty_feed_not_25 :
    ¬ ((channelsPtsRun (fun _ => []) (sixtyDistinctPts.map (fun p => (7, p)))).1 7).length = 25 := by
  decide

/-- C1, amended: feeding the same `(channel_id, pts)` pair twice delivers
exactly one update downstream (the first feed delivers, the second is
deduplicated); after feeding 60 distinct pts values for one channel the
per-channel history retains exactly 35 entries — whenever the history
exceeds 50 entries it is trimmed by dropping the oldest 25, leaving the
most recent 26. -/
theorem channels_pts_dedup_and_trim (m m' : Int → List Int) (cid cid' pts pts' : Int)
    (hnew : pts ∉ m cid) (hnew' : pts' ∉ m' cid') (hlen : (m' cid').length = 50) :
    (channelsPtsRun m [(cid, pts), (cid, pts)]).2 = 1 ∧
    ((channelsPtsStep m' cid' pts').1 cid').length = 26 ∧
    ((channelsPtsRun (fun _ => []) (sixtyDistinctPts.map (fun p => (7, p)))).1 7).length = 35 := by
  refine ⟨?_, ?_, by decide⟩
  · have h1 : (channelsPtsStep m cid pts).2 = true := feedPts_new _ _ hnew
    have h2 : (channelsPtsStep m cid pts).1 cid = (feedPts (m cid) pts).1 := by
      simp [channelsPtsStep]
    have h3 : (channelsPtsStep (channelsPtsStep m cid pts).1 cid pts).2 = false := by
      show (feedPts ((channelsPtsStep m cid pts).1 cid) pts).2 = false
      rw [h2, feedPts_dup _ _ (feedPts_mem (m cid) pts)]
    simp only [channelsPtsRun]
    rw [h1]
    rw [h3]
    simp
  · have hstep : (channelsPtsStep m' cid' pts').1 cid' = (feedPts (m' cid') pts').1 := by
      simp [channelsPtsStep]
    rw [hstep]
    exact feedPts_trim _ _ hnew' hlen

/-- Witness for `channels_pts_dedup_and_trim` at concrete inputs: the empty
map with pts 1, and a map holding the 50 values 1..50 at channel 3 fed
pts 60. -/
theorem channels_pts_dedup_and_trim_witness :
    (channelsPtsRun (fun _ => []) [(3, 1), (3, 1)]).2 = 1 := by
  have h := channels_pts_dedup_and_trim (fun _ => []) (fun _ => (List.range 50).map (fun n => (n : Int) + 1))
    3 3 1 60 (by decide) (by decide) (by decide)
  exact h.1

/-! ## Updates worker: short-message branch (client.py lines 1003-1023)

Source:
```
elif isinstance(updates, (types.UpdateShortMessage, types.UpdateShortChatMessage)):
    diff = await self.send(
        functions.updates.GetDifference(
            pts=updates.pts - updates.pts_count,
            date=updates.date,
            qts=-1))
    if diff.new_messages:
        self.dispatcher.updates_queue.put_nowait((
            types.UpdateNewMessage(
                message=diff.new_messages[0],
                pts=updates.pts,
                pts_count=updates.pts_count),
            diff.users, diff.chats))
    else:
        self.dispatcher.updates_queue.put_nowait((diff.other_updates[0], [], []))
```
Messages, updates, users and chats are opaque to this branch and are
abstracted to `Nat` tokens. When `new_messages` and `other_updates` are
both empty, `diff.other_updates[0]` raises `IndexError`, which the worker
loop's `except Exception` swallows: nothing is delivered (`none`). -/

structure ShortMessageEnvelope where
  pts : Int
  pts_count : Int
  date : Int

structure GetDifferenceArgs where
  pts : Int
  date : Int
  qts : Int
deriving DecidableEq

/-- The fields of the `updates.GetDifference` result that this branch uses. -/
structure Difference where
  new_messages : List Nat
  other_updates : List Nat
  users : List Nat
  chats : List Nat

/-- A tuple handed to `dispatcher.updates_queue.put_nowait` by this branch:
either a rebuilt `UpdateNewMessage` with the difference's users/chats, or a
bare first "other" update with empty entity lists. -/
inductive ShortDelivery where
  | newMessage (message : Nat) (pts pts_count : Int) (users chats : List Nat)
  | other (update : Nat)
deriving DecidableEq

/-- The short-message branch of `updates_worker`: issues one
`GetDifference` call (modelled by the oracle `getDifference`) and returns
the issued arguments together with what is delivered downstream. -/
def shortMessageBranch (env : ShortMessageEnvelope)
    (getDifference : GetDifferenceArgs → Difference) :
    GetDifferenceArgs × Option ShortDelivery :=
  let args : GetDifferenceArgs := ⟨env.pts - env.pts_count, env.date, -1⟩
  let diff := getDifference args
  (args,
    match diff.new_messages with
    | msg :: _ => some (.newMessage msg env.pts env.pts_count diff.users diff.chats)
    | [] =>
      match diff.other_updates with
      | u :: _ => some (.other u)
      | [] => none)

/-- C8: for every short-message / short-chat-message envelope the worker
issues `GetDifference(pts = pts - pts_count, date, qts = -1)` and delivers
the first new message if present, else the first "other" update if
present, else nothing. -/
theorem short_message_branch_spec (env : ShortMessageEnvelope)
    (getDifference : GetDifferenceArgs → Difference) :
    (shortMessageBranch env getDifference).1 =
        ⟨env.pts - env.pts_count, env.date, -1⟩ ∧
    (∀ m ms, (getDifference ⟨env.pts - env.pts_count, env.date, -1⟩).new_messages = m :: ms →
      (shortMessageBranch env getDifference).2 =
        some (.newMessage m env.pts env.pts_count
          (getDifference ⟨env.pts - env.pts_count, env.date, -1⟩).users
          (getDifference ⟨env.pts - env.pts_count, env.date, -1⟩).chats)) ∧
    (∀ u us, (getDifference ⟨env.pts - env.pts_count, env.date, -1⟩).new_messages = [] →
      (getDifference ⟨env.pts - env.pts_count, env.date, -1⟩).other_updates = u :: us →
      (shortMessageBranch env getDifference).2 = some (.other u)) ∧
    ((getDifference ⟨env.pts - env.pts_count, env.date, -1⟩).new_messages = [] →
      (getDifference ⟨env.pts - env.pts_count, env.date, -1⟩).other_updates = [] →
      (shortMessageBranch env getDifference).2 = none) := by
  refine ⟨rfl, ?_, ?_, ?_⟩
  · intro m ms hm
    simp [shortMessageBranch, hm]
  · intro u us hm hu
    simp [shortMessageBranch, hm, hu]
  · intro hm hu
    simp [shortMessageBranch, hm, hu]

/-- Witness for `short_message_branch_spec`: an envelope with pts 10,
pts_count 2, date 99 against an oracle answering with one other-update
token 5 delivers `other 5`. -/
theorem short_message_branch_spec_witness :
    (shortMessageBranch ⟨10, 2, 99⟩ (fun _ => ⟨[], [5], [], []⟩)).2 = some (.other 5) :=
  (short_message_branch_spec ⟨10, 2, 99⟩ (fun _ => ⟨[], [5], [], []⟩)).2.2.1 5 [] rfl rfl

/-! ## Session persistence (client.py `save_session` lines 1274-1292,
`load_session` lines 1138-1168)

Source (save):
```
auth_key = base64.b64encode(self.auth_key).decode()
auth_key = [auth_key[i: i + 43] for i in range(0, len(auth_key), 43)]
...
json.dump(dict(dc_id=..., test_mode=..., auth_key=auth_key,
               user_id=..., date=..., is_bot=...), f, indent=4)
```
Source (load, existing file):
```
self.dc_id = s["dc_id"]
self.test_mode = s["test_mode"]
self.auth_key = base64.b64decode("".join(s["auth_key"]))
self.user_id = s["user_id"]
self.date = s.get("date", 0)
self.is_bot = s.get("is_bot", self.is_bot)
for k, v in s.get("peers_by_id", {}).items(): ...
```
Bytes are `Nat`s below 256. `b64encode`/`b64decode` model CPython's
`base64.b64encode`/`b64decode` (standard RFC 4648 base64 with `=`
padding), which the source calls; `chunks43` models the 43-character
list-comprehension hard wrap. -/

def b64Alphabet : List Char :=
  ['A','B','C','D','E','F','G','H','I','J','K','L','M',
   'N','O','P','Q','R','S','T','U','V','W','X','Y','Z',
   'a','b','c','d','e','f','g','h','i','j','k','l','m',
   'n','o','p','q','r','s','t','u','v','w','x','y','z',
   '0','1','2','3','4','5','6','7','8','9','+','/']

def sextetChar (n : Nat) : Char := b64Alphabet.getD n 'A'

def charSextet (c : Char) : Nat := b64Alphabet.indexOf c

/-- Standard base64 encoding of a byte list (as called by `save_session`
via `base64.b64encode`). -/
def b64encode : List Nat → List Char
  | [] => []
  | [b1] => [sextetChar (b1 / 4), sextetChar (b1 % 4 * 16), '=', '=']
  | [b1, b2] => [sextetChar (b1 / 4), sextetChar (b1 % 4 * 16 + b2 / 16),
                 sextetChar (b2 % 16 * 4), '=']
  | b1 :: b2 :: b3 :: rest =>
    sextetChar (b1 / 4) :: sextetChar (b1 % 4 * 16 + b2 / 16) ::
    sextetChar (b2 % 16 * 4 + b3 / 64) :: sextetChar (b3 % 64) :: b64encode rest

/-- Standard base64 decoding (as called by `load_session` via
`base64.b64decode`), on well-formed base64 text. -/
def b64decode : List Char → List Nat
  | c1 :: c2 :: c3 :: c4 :: rest =>
    if c4 = '=' then
      if c3 = '=' then [charSextet c1 * 4 + charSextet c2 / 16]
      else [charSextet c1 * 4 + charSextet c2 / 16,
            charSextet c2 % 16 * 16 + charSextet c3 / 4]
    else
      (charSextet c1 * 4 + charSextet c2 / 16) ::
      (charSextet c2 % 16 * 16 + charSextet c3 / 4) ::
      (charSextet c3 % 4 * 64 + charSextet c4) :: b64decode rest
  | _ => []

theorem charSextet_sextetChar : ∀ n : Nat, n < 64 → charSextet (sextetChar n) = n := by
  decide

theorem sextetChar_ne_eq : ∀ n : Nat, n < 64 → sextetChar n ≠ '=' := by
  decide

theorem b64decode_encode : ∀ (bs : List Nat), (∀ b ∈ bs, b < 256) →
    b64decode (b64encode bs) = bs
  | [], _ => rfl
  | [b1], h => by
    have hb1 : b1 < 256 := h b1 (by simp)
    simp only [b64encode, b64decode, if_pos rfl, reduceIte]
    rw [charSextet_sextetChar _ (by omega), charSextet_sextetChar _ (by omega)]
    simp only [List.cons.injEq, and_true]
    omega
  | [b1, b2], h => by
    have hb1 : b1 < 256 := h b1 (by simp)
    have hb2 : b2 < 256 := h b2 (by simp)
    simp only [b64encode, b64decode, reduceIte]
    rw [if_neg (sextetChar_ne_eq _ (by omega))]
    rw [charSextet_sextetChar _ (by omega), charSextet_sextetChar _ (by omega),
        charSextet_sextetChar _ (by omega)]
    simp only [List.cons.injEq, and_true]
    constructor <;> omega
  | b1 :: b2 :: b3 :: rest, h => by
    have hb1 : b1 < 256 := h b1 (by simp)
    have hb2 : b2 < 256 := h b2 (by simp)
    have hb3 : b3 < 256 := h b3 (by simp)
    have ih := b64decode_encode rest (fun b hb => h b (by simp [hb]))
    match rest with
    | [] =>
      simp only [b64encode, b64decode]
      rw [if_neg (sextetChar_ne_eq _ (by omega))]
      rw [charSextet_sextetChar _ (by omega), charSextet_sextetChar _ (by omega),
          charSextet_sextetChar _ (by omega), charSextet_sextetChar _ (by omega)]
      simp only [List.cons.injEq, and_true]
      refine ⟨by omega, by omega, by omega⟩
    | r1 :: rest2 =>
      rw [show b64encode (b1 :: b2 :: b3 :: r1 :: rest2) =
            sextetChar (b1 / 4) :: sextetChar (b1 % 4 * 16 + b2 / 16) ::
            sextetChar (b2 % 16 * 4 + b3 / 64) :: sextetChar (b3 % 64) ::
            b64encode (r1 :: rest2) from rfl]
      rw [b64decode]
      rw [if_neg (sextetChar_ne_eq _ (by omega))]
      rw [charSextet_sextetChar _ (by omega), charSextet_sextetChar _ (by omega),
          charSextet_sextetChar _ (by omega), charSextet_sextetChar _ (by omega)]
      rw [ih]
      simp only [List.cons.injEq, and_true]
      refine ⟨by omega, by omega, by omega⟩

/-- `[auth_key[i : i + 43] for i in range(0, len(auth_key), 43)]`. -/
def chunks43 : List Char → List (List Char)
  | [] => []
  | a :: l => (a :: l).take 43 :: chunks43 ((a :: l).drop 43)
termination_by s => s.length
decreasing_by simp [List.length_drop]; omega

/-- `"".join(s["auth_key"])` undoes the hard wrap verbatim. -/
theorem chunks43_flatten : ∀ s : List Char, (chunks43 s).flatten = s
  | [] => by rw [chunks43]; rfl
  | a :: l => by
    rw [chunks43]
    rw [List.flatten]
    rw [chunks43_flatten ((a :: l).drop 43)]
    exact List.take_append_drop 43 (a :: l)
termination_by s => s.length
decreasing_by simp [List.length_drop]; omega

theorem chunks43_width : ∀ s : List Char, ∀ c ∈ chunks43 s, c.length ≤ 43
  | [] => by rw [chunks43]; simp
  | a :: l => by
    rw [chunks43]
    intro c hc
    rcases List.mem_cons.1 hc with h | h
    · subst h; simp
    · exact chunks43_width ((a :: l).drop 43) c h
termination_by s => s.length
decreasing_by simp [List.length_drop]; omega

/-- The client attributes persisted by `save_session` and restored by
`load_session`. -/
structure SessionState where
  dc_id : Int
  test_mode : Bool
  auth_key : List Nat
  user_id : Int
  date : Int
  is_bot : Bool
deriving DecidableEq

/-- The parsed content of the `.session` file relevant to load/save. -/
structure SessionFile where
  dc_id : Int
  test_mode : Bool
  auth_key : List (List Char)
  user_id : Int
  date : Int
  is_bot : Bool

def save_session (s : SessionState) : SessionFile :=
  { dc_id := s.dc_id
    test_mode := s.test_mode
    auth_key := chunks43 (b64encode s.auth_key)
    user_id := s.user_id
    date := s.date
    is_bot := s.is_bot }

def load_session (f : SessionFile) : SessionState :=
  { dc_id := f.dc_id
    test_mode := f.test_mode
    auth_key := b64decode f.auth_key.flatten
    user_id := f.user_id
    date := f.date
    is_bot := f.is_bot }

/-- A JSON value of the shapes `save_session` writes. -/
inductive JsonValue where
  | int (n : Int)
  | bool (b : Bool)
  | strList (l : List (List Char))
deriving DecidableEq

/-- The JSON object passed to `json.dump` by `save_session`, as the ordered
key/value list of client.py lines 1281-1289. -/
def save_session_json (s : SessionState) : List (String × JsonValue) :=
  [("dc_id", .int s.dc_id),
   ("test_mode", .bool s.test_mode),
   ("auth_key", .strList (chunks43 (b64encode s.auth_key))),
   ("user_id", .int s.user_id),
   ("date", .int s.date),
   ("is_bot", .bool s.is_bot)]

/-- C6: `save_session` followed by `load_session` reproduces dc_id,
test_mode, user_id, date, is_bot and the exact auth key bytes: the auth
key is base64-encoded and hard-wrapped into 43-character lines on save,
re-joined verbatim and base64-decoded on load. -/
theorem session_save_load_round_trip (s : SessionState)
    (h : ∀ b ∈ s.auth_key, b < 256) : load_session (save_session s) = s := by
  simp only [load_session, save_session, chunks43_flatten, b64decode_encode s.auth_key h]

/-- Witness for `session_save_load_round_trip`: a state with the 256-byte
key 0,1,...,255 survives the round trip. -/
theorem session_save_load_round_trip_witness :
    load_session (save_session ⟨2, false, List.range 256, 42, 100, true⟩) =
      ⟨2, false, List.range 256, 42, 100, true⟩ :=
  session_save_load_round_trip _ (by decide)

/-- C2, counterexample: the JSON record written by `save_session` for a
concrete session state carries none of the keys `peers_by_id`,
`peers_by_username`, `peers_by_phone` — the peer directory is not
persisted. -/
theorem save_session_omits_peer_maps :
    "peers_by_id" ∉ (save_session_json ⟨1, false, [], 0, 0, false⟩).map Prod.fst ∧
    "peers_by_username" ∉ (save_session_json ⟨1, false, [], 0, 0, false⟩).map Prod.fst ∧
    "peers_by_phone" ∉ (save_session_json ⟨1, false, [], 0, 0, false⟩).map Prod.fst := by
  decide

/-- C2, amended: the durable session file written at session save is a
JSON record containing exactly dc_id, test_mode, the auth key as base64
chunks of width at most 43, user_id, date and is_bot; the peer directory
maps are NOT persisted at session save (load_session reads them only when
present in the file, defaulting to empty). -/
theorem save_session_fields (s : SessionState) :
    (save_session_json s).map Prod.fst =
      ["dc_id", "test_mode", "auth_key", "user_id", "date", "is_bot"] ∧
    "peers_by_id" ∉ (save_session_json s).map Prod.fst ∧
    "peers_by_username" ∉ (save_session_json s).map Prod.fst ∧
    "peers_by_phone" ∉ (save_session_json s).map Prod.fst ∧
    (save_session_json s).lookup "auth_key" =
      some (.strList (chunks43 (b64encode s.auth_key))) ∧
    (∀ c ∈ chunks43 (b64encode s.auth_key), c.length ≤ 43) := by
  refine ⟨rfl, by simp [save_session_json], by simp [save_session_json],
    by simp [save_session_json], rfl, chunks43_width _⟩

/-! ## Peer directory (client.py `fetch_peers` lines 775-833,
`resolve_peer` lines 1327-1396)

`fetch_peers` upserts each entity of a list into the three maps
`peers_by_id` / `peers_by_username` / `peers_by_phone` (Python dicts,
modelled as total functions to `Option`):

* a `types.User` with `access_hash is None` is skipped (`continue`),
  otherwise cached under its id, lowercased username and phone;
* a `types.Chat`/`ChatForbidden` is cached under `-chat_id`;
* a `types.Channel`/`ChannelForbidden` with `access_hash is None` is
  skipped, otherwise cached under `int("-100" + str(channel_id))` and its
  lowercased username.

The `InputPeer` variants carry non-optional access hashes: in this model a
reference lacking a required hash cannot even be constructed, matching the
invariant that such entities are never cached. -/

/-- Decimal value of an ASCII digit string, as `int(...)` computes it. -/
def digitsToNat (cs : List Char) : Nat :=
  cs.foldl (fun acc c => acc * 10 + (c.toNat - 48)) 0

/-- `int("-100" + str(k))`: the channel-id remap used by both
`fetch_peers` (line 815) and `updates_worker` (line 972); `str(k)` is
`Nat.toDigits 10 k` and the leading minus sign makes the parse negative. -/
def concatMinus100 (k : Nat) : Int :=
  - Int.ofNat (digitsToNat (Nat.toDigits 10 100 ++ Nat.toDigits 10 k))

/-- Sanity: the string concatenation parses to the expected values. -/
theorem concatMinus100_eval :
    concatMinus100 123456 = -100123456 ∧ concatMinus100 0 = -1000 ∧
    concatMinus100 7 = -1007 := by
  refine ⟨by decide, by decide, by decide⟩

/-- An addressable peer reference (`types.InputPeerUser` /
`types.InputPeerChat` / `types.InputPeerChannel` / `types.InputPeerSelf`). -/
inductive InputPeer where
  | self
  | user (user_id : Int) (access_hash : Int)
  | chat (chat_id : Int)
  | channel (channel_id : Nat) (access_hash : Int)
deriving DecidableEq

/-- An entity as fed to `fetch_peers` (`types.User`,
`types.Chat`/`ChatForbidden`, `types.Channel`/`ChannelForbidden`). -/
inductive Entity where
  | user (id : Int) (access_hash : Option Int) (username : Option String)
      (phone : Option String)
  | chat (id : Int)
  | channel (id : Nat) (access_hash : Option Int) (username : Option String)
deriving DecidableEq

structure PeerDirectory where
  peers_by_id : Int → Option InputPeer
  peers_by_username : String → Option InputPeer
  peers_by_phone : String → Option InputPeer

/-- Process one entity of the `fetch_peers` loop body. -/
def fetchPeer (d : PeerDirectory) : Entity → PeerDirectory
  | .user _ none _ _ => d
  | .user uid (some h) username phone =>
    let ip := InputPeer.user uid h
    let d1 := { d with peers_by_id := fun k => if k = uid then some ip else d.peers_by_id k }
    let d2 := match username with
      | some u =>
        { d1 with peers_by_username :=
            fun k => if k = u.toLower then some ip else d1.peers_by_username k }
      | none => d1
    match phone with
    | some p =>
      { d2 with peers_by_phone := fun k => if k = p then some ip else d2.peers_by_phone k }
    | none => d2
  | .chat cid =>
    let ip := InputPeer.chat cid
    { d with peers_by_id := fun k => if k = -cid then some ip else d.peers_by_id k }
  | .channel _ none _ => d
  | .channel cid (some h) username =>
    let ip := InputPeer.channel cid h
    let d1 :=
      { d with peers_by_id :=
          fun k => if k = concatMinus100 cid then some ip else d.peers_by_id k }
    match username with
    | some u =>
      { d1 with peers_by_username :=
          fun k => if k = u.toLower then some ip else d1.peers_by_username k }
    | none => d1

def fetch_peers (d : PeerDirectory) (entities : List Entity) : PeerDirectory :=
  entities.foldl fetchPeer d

inductive PeerError where
  | peerIdInvalid
deriving DecidableEq

/-- `resolve_peer` for a numeric peer id (client.py lines 1347-1396): a
primary-map hit returns at once; on a miss the remote lookup
(`users.GetUsers` / `channels.GetChannels` / `messages.GetChats`,
modelled by the oracle `remote`) populates the directory through
`fetch_peers` — explicitly in the source for the user branch, via the
transport session's opportunistic population (outside this file) for the
others — then the primary map is re-checked and `PeerIdInvalid` raised on
a second miss. -/
def resolve_peer_numeric (d : PeerDirectory) (remote : Int → List Entity)
    (peer_id : Int) : Except PeerError (InputPeer × PeerDirectory) :=
  match d.peers_by_id peer_id with
  | some p => .ok (p, d)
  | none =>
    let d2 := fetch_peers d (remote peer_id)
    match d2.peers_by_id peer_id with
    | some p => .ok (p, d2)
    | none => .error .peerIdInvalid

/-- C4: an entity lacking its required access hash is skipped entirely by
`fetch_peers` — the directory is unchanged, so nothing is added to any of
the three maps — and a subsequent numeric resolve of that id fails with
`PeerIdInvalid` (the remote lookup again yields only the hash-less
entity). In this model a cached reference structurally cannot carry a
null access hash: `InputPeer.user`/`InputPeer.channel` hashes are
non-optional and only built from entities with a present hash. -/
theorem fetch_peers_skips_missing_hash (d : PeerDirectory) (uid : Int) (cid : Nat)
    (un un' ph : Option String) (hmiss : d.peers_by_id uid = none) :
    fetchPeer d (.user uid none un ph) = d ∧
    fetchPeer d (.channel cid none un') = d ∧
    resolve_peer_numeric (fetch_peers d [.user uid none un ph])
      (fun _ => [.user uid none un ph]) uid = .error .peerIdInvalid := by
  refine ⟨rfl, rfl, ?_⟩
  show resolve_peer_numeric d (fun _ => [.user uid none un ph]) uid = .error .peerIdInvalid
  unfold resolve_peer_numeric
  rw [hmiss]
  show (match d.peers_by_id uid with
        | some p => Except.ok (p, d)
        | none => Except.error PeerError.peerIdInvalid) = Except.error PeerError.peerIdInvalid
  rw [hmiss]

/-- Witness for `fetch_peers_skips_missing_hash`: the empty directory fed
a hash-less user 10 and asked to resolve 10. -/
theorem fetch_peers_skips_missing_hash_witness :
    resolve_peer_numeric
      (fetch_peers ⟨fun _ => none, fun _ => none, fun _ => none⟩
        [.user 10 none none none])
      (fun _ => [.user 10 none none none]) 10 = .error .peerIdInvalid :=
  (fetch_peers_skips_missing_hash ⟨fun _ => none, fun _ => none, fun _ => none⟩
    10 5 none none none rfl).2.2

/-- C5: a channel entity with id `K` and a present access hash is stored
under `int("-100" + str(K))`, resolving that remapped id returns a
reference carrying channel id `K` and the given hash, and a basic-chat
entity with id `C` is stored under the simple negation `-C`. -/
theorem fetch_peers_channel_remap (d : PeerDirectory) (k : Nat) (h : Int)
    (un : Option String) (c : Int) (remote : Int → List Entity) :
    (fetch_peers d [.channel k (some h) un]).peers_by_id (concatMinus100 k) =
      some (.channel k h) ∧
    resolve_peer_numeric (fetch_peers d [.channel k (some h) un]) remote
      (concatMinus100 k) =
      .ok (.channel k h, fetch_peers d [.channel k (some h) un]) ∧
    (fetch_peers d [.chat c]).peers_by_id (-c) = some (.chat c) := by
  have h1 : (fetch_peers d [.channel k (some h) un]).peers_by_id (concatMinus100 k) =
      some (.channel k h) := by
    show (fetchPeer d (.channel k (some h) un)).peers_by_id (concatMinus100 k) =
      some (.channel k h)
    match un with
    | none => simp [fetchPeer]
    | some u => simp [fetchPeer]
  refine ⟨h1, ?_, by simp [fetch_peers, fetchPeer]⟩
  unfold resolve_peer_numeric
  rw [h1]

/-! ## Transfer engine, upload (client.py `save_file` lines 1398-1549)

The loop reads fixed 512 KiB chunks from `part_size * file_part` onward,
enqueues one `SaveBigFilePart`/`SaveFilePart` RPC per chunk onto the
worker queue, and:

* on an empty read (`if not chunk:`) finalizes the MD5 for small files
  and breaks, returning `InputFileBig` / `InputFile`;
* after enqueuing, a resume call (`is_missing_part`, i.e. an explicit
  `file_id`) executes a bare `return` — the Python function returns
  `None` (`noneResult` below);
* `Client.StopTransmission` raised by the progress callback is re-raised
  (`except Client.StopTransmission: raise`), any other exception is
  logged and swallowed (the function falls through to return `None`).

The MD5 object is opaque: `Md5State` records the chunks fed to
`md5_sum.update`, `none` standing for Python's `md5_sum = None` (big file
or resume). `cancelAt n` models the progress callback raising
`StopTransmission` on the call made after `file_part` reaches `n`. -/

def partSize : Nat := 512 * 1024

/-- The chunks fed to the incremental `md5_sum.update`. -/
abbrev Md5State := List (List Nat)

inductive UploadRpc where
  | saveBigFilePart (file_id : Int) (file_part : Nat) (file_total_parts : Nat)
      (bytes : List Nat)
  | saveFilePart (file_id : Int) (file_part : Nat) (bytes : List Nat)
deriving DecidableEq

inductive SaveFileResult where
  | valueError
  | stopTransmission
  | noneResult
  | inputFileBig (id : Int) (parts : Nat)
  | inputFile (id : Int) (parts : Nat) (md5_chunks : Md5State)
deriving DecidableEq

def save_file_loop (file_id : Int) (is_big is_missing_part : Bool)
    (file_total_parts : Nat) (cancelAt : Nat → Bool) (hasProgress : Bool) :
    List Nat → Nat → Option Md5State → List UploadRpc →
    List UploadRpc × SaveFileResult
  | remaining, file_part, md5_sum, acc =>
    let chunk := remaining.take partSize
    if chunk = [] then
      if is_big then (acc, .inputFileBig file_id file_total_parts)
      else
        match md5_sum with
        | some chunks => (acc, .inputFile file_id file_total_parts chunks)
        | none => (acc, .noneResult)
    else
      let rpc := if is_big then
          UploadRpc.saveBigFilePart file_id file_part file_total_parts chunk
        else UploadRpc.saveFilePart file_id file_part chunk
      let acc2 := acc ++ [rpc]
      if is_missing_part then (acc2, .noneResult)
      else
        let md5' := if is_big then md5_sum else md5_sum.map (· ++ [chunk])
        let fp' := file_part + 1
        if hasProgress && cancelAt fp' then (acc2, .stopTransmission)
        else save_file_loop file_id is_big is_missing_part file_total_parts
          cancelAt hasProgress (remaining.drop partSize) fp' md5' acc2
termination_by remaining => remaining.length
decreasing_by
  rename_i hch _hcan
  have hne : remaining ≠ [] := by
    intro h
    apply hch
    show List.take partSize remaining = []
    rw [h]
    rfl
  have hpos : 0 < remaining.length := List.length_pos.2 hne
  have hlen : (List.drop partSize remaining).length = remaining.length - partSize :=
    List.length_drop _ _
  have hps : partSize = 524288 := rfl
  omega

def save_file (file : List Nat) (file_id? : Option Int) (file_part : Nat)
    (rnd_id : Int) (hasProgress : Bool) (cancelAt : Nat → Bool) :
    List UploadRpc × SaveFileResult :=
  let file_size := file.length
  if file_size = 0 then ([], .valueError)
  else if file_size > 1500 * 1024 * 1024 then ([], .valueError)
  else
    let file_total_parts := (file_size + partSize - 1) / partSize
    let is_big : Bool := decide (file_size > 10 * 1024 * 1024)
    let is_missing_part : Bool := file_id?.isSome
    let file_id := match file_id? with
      | some v => if v = 0 then rnd_id else v
      | none => rnd_id
    let md5_sum : Option Md5State :=
      if !is_big && !is_missing_part then some [] else none
    save_file_loop file_id is_big is_missing_part file_total_parts cancelAt
      hasProgress (file.drop (partSize * file_part)) file_part md5_sum []

/-- The 512 KiB chunking of a byte list, the order `md5_sum.update` and
the part loop see it. -/
def chunksOfPart : List Nat → List (List Nat)
  | [] => []
  | a :: l => (a :: l).take partSize :: chunksOfPart ((a :: l).drop partSize)
termination_by l => l.length
decreasing_by simp [List.length_drop, partSize]; omega

/-! ## Transfer engine, download (client.py `get_file` lines 1551-1743)

`get_file` issues `upload.GetFile(offset=0)`; a `types.upload.File`
response enters the plain loop (write `r.bytes`, stop on an empty chunk),
a `FileCdnRedirect` enters the CDN loop (decrypt each chunk with the
offset-derived IV, verify each `h.limit`-sized slice against the
server-supplied `FileHash` records via `assert h.hash == sha256(...)`,
stop when a short chunk arrives; a `CdnFileReuploadNeeded` triggers
`ReuploadCdnFile`, whose `VolumeLocNotFound` failure breaks the loop).
Any exception inside the outer `try` — including the failed CDN hash
`assert` and `StopTransmission` from the progress callback — is caught
by `except Exception`, the temp file is removed (`os.remove`) and `""`
is returned; otherwise the temp file name is returned.

Server traffic is an event trace; `decrypt` and `sha` stand for
`AES.ctr256_decrypt` and `hashlib.sha256`. `cancelAt n` models the
progress callback raising `StopTransmission` once `offset` reaches `n`. -/

def downloadLimit : Nat := 1024 * 1024

/-- A `types.FileHash` record from `upload.GetCdnFileHashes`. -/
structure CdnHashRec where
  limit : Nat
  hash : List Nat
deriving DecidableEq

inductive CdnEvent where
  | reuploadNeeded (reuploadFails : Bool)
  | chunk (bytes : List Nat) (hashes : List CdnHashRec)
deriving DecidableEq

inductive DownloadOutcome where
  | graceful (written : List Nat)
  | cancelled (written : List Nat)
  | integrityFailure (written : List Nat)
  | exhausted (written : List Nat)
deriving DecidableEq

/-- `for i, h in enumerate(hashes): cdn_chunk = decrypted_chunk[h.limit * i : h.limit * (i + 1)]; assert h.hash == sha256(cdn_chunk).digest()`. -/
def cdnVerify (sha : List Nat → List Nat) (decrypted : List Nat)
    (hashes : List CdnHashRec) : Bool :=
  hashes.enum.all (fun ih =>
    ih.2.hash = sha ((decrypted.drop (ih.2.limit * ih.1)).take ih.2.limit))

def get_file_plain_loop (hasProgress : Bool) (cancelAt : Nat → Bool) :
    List (List Nat) → Nat → List Nat → DownloadOutcome
  | [], _, written => .exhausted written
  | chunk :: rest, offset, written =>
    if chunk = [] then .graceful written
    else
      let written2 := written ++ chunk
      let offset2 := offset + downloadLimit
      if hasProgress && cancelAt offset2 then .cancelled written2
      else get_file_plain_loop hasProgress cancelAt rest offset2 written2

def get_file_cdn_loop (decrypt : Nat → List Nat → List Nat)
    (sha : List Nat → List Nat) (hasProgress : Bool) (cancelAt : Nat → Bool) :
    List CdnEvent → Nat → List Nat → DownloadOutcome
  | [], _, written => .exhausted written
  | .reuploadNeeded fails :: rest, offset, written =>
    if fails then .graceful written
    else get_file_cdn_loop decrypt sha hasProgress cancelAt rest offset written
  | .chunk bytes hashes :: rest, offset, written =>
    let decrypted := decrypt offset bytes
    if cdnVerify sha decrypted hashes then
      let written2 := written ++ decrypted
      let offset2 := offset + downloadLimit
      if hasProgress && cancelAt offset2 then .cancelled written2
      else if bytes.length < downloadLimit then .graceful written2
      else get_file_cdn_loop decrypt sha hasProgress cancelAt rest offset2 written2
    else .integrityFailure written

/-- The first `upload.GetFile` response selects the path taken. -/
inductive FirstResponse where
  | file (events : List (List Nat))
  | cdnRedirect (events : List CdnEvent)

/-- `path w` models `return file_name` with the temp file holding bytes
`w`; `empty` models the `except Exception` handler: `os.remove` of the
temp file followed by `return ""`. -/
inductive GetFileResult where
  | path (written : List Nat)
  | empty
deriving DecidableEq

def get_file (decrypt : Nat → List Nat → List Nat) (sha : List Nat → List Nat)
    (hasProgress : Bool) (cancelAt : Nat → Bool) : FirstResponse → GetFileResult
  | .file events =>
    match get_file_plain_loop hasProgress cancelAt events 0 [] with
    | .graceful w => .path w
    | .cancelled _ => .empty
    | .integrityFailure _ => .empty
    | .exhausted _ => .empty
  | .cdnRedirect events =>
    match get_file_cdn_loop decrypt sha hasProgress cancelAt events 0 [] with
    | .graceful w => .path w
    | .cancelled _ => .empty
    | .integrityFailure _ => .empty
    | .exhausted _ => .empty

/-! ## Transfer-engine lemmas and claim theorems -/

theorem save_file_loop_big_no_md5 (fid : Int) (miss : Bool) (parts : Nat)
    (cAt : Nat → Bool) (hp : Bool) :
    ∀ (remaining : List Nat) (fp : Nat) (md : Option Md5State) (acc : List UploadRpc)
      (i : Int) (p : Nat) (c : Md5State),
      (save_file_loop fid true miss parts cAt hp remaining fp md acc).2 ≠
        .inputFile i p c := by
  cases miss with
  | true =>
    intro remaining fp md acc i p c
    rw [save_file_loop.eq_def]
    by_cases hch : List.take partSize remaining = []
    · simp [hch]
    · simp [hch]
  | false =>
    have H : ∀ (n : Nat) (remaining : List Nat), remaining.length = n →
        ∀ (fp : Nat) (md : Option Md5State) (acc : List UploadRpc) (i : Int) (p : Nat)
          (c : Md5State),
        (save_file_loop fid true false parts cAt hp remaining fp md acc).2 ≠
          .inputFile i p c := by
      intro n
      induction n using Nat.strong_induction_on with
      | _ n ih =>
        intro remaining hlen fp md acc i p c
        rw [save_file_loop.eq_def]
        by_cases hch : List.take partSize remaining = []
        · simp [hch]
        · simp only [hch, if_neg, ite_false, if_true, reduceIte, Bool.false_eq_true]
          by_cases hcan : (hp && cAt (fp + 1)) = true
          · simp [hcan]
          · simp only [hcan, Bool.false_eq_true, ite_false, reduceIte]
            have hne : remaining ≠ [] := by
              intro h
              apply hch
              rw [h]
              rfl
            have hpos : 0 < remaining.length := List.length_pos.2 hne
            have hlt : (remaining.drop partSize).length < n := by
              have := List.length_drop partSize remaining
              have hps : partSize = 524288 := rfl
              omega
            exact ih _ hlt (remaining.drop partSize) rfl _ _ _ _ _ _
    intro remaining
    exact H remaining.length remaining rfl

theorem save_file_loop_small_md5 (fid : Int) (parts : Nat) (cAt : Nat → Bool) (hp : Bool)
    (hnc : ∀ n, (hp && cAt n) = false) :
    ∀ (remaining : List Nat) (fp : Nat) (acc : Md5State) (rpcs : List UploadRpc),
      (save_file_loop fid false false parts cAt hp remaining fp (some acc) rpcs).2 =
        .inputFile fid parts (acc ++ chunksOfPart remaining) := by
  have H : ∀ (n : Nat) (remaining : List Nat), remaining.length = n →
      ∀ (fp : Nat) (acc : Md5State) (rpcs : List UploadRpc),
      (save_file_loop fid false false parts cAt hp remaining fp (some acc) rpcs).2 =
        .inputFile fid parts (acc ++ chunksOfPart remaining) := by
    intro n
    induction n using Nat.strong_induction_on with
    | _ n ih =>
      intro remaining hlen fp acc rpcs
      rw [save_file_loop.eq_def]
      cases remaining with
      | nil =>
        rw [chunksOfPart]
        simp
      | cons a l =>
        have hch : ¬ (List.take partSize (a :: l) = []) := by
          rw [List.take_eq_nil_iff]
          simp [partSize]
        simp only [hch, if_neg, ite_false, reduceIte, Bool.false_eq_true, hnc,
          Option.map_some']
        have hlt : ((a :: l).drop partSize).length < n := by
          have hd := List.length_drop partSize (a :: l)
          have hps : partSize = 524288 := rfl
          have hl : (a :: l).length = l.length + 1 := by simp
          omega
        rw [ih _ hlt ((a :: l).drop partSize) rfl (fp + 1) (acc ++ [List.take partSize (a :: l)])]
        rw [chunksOfPart]
        simp
  intro remaining
  exact H remaining.length remaining rfl

theorem save_file_resume_part (file : List Nat) (fid : Int) (fp : Nat) (rnd : Int)
    (hp : Bool) (cAt : Nat → Bool)
    (h0 : ¬ file.length = 0) (hmax : ¬ file.length > 1500 * 1024 * 1024)
    (hfid : ¬ fid = 0) (hoff : partSize * fp < file.length) :
    save_file file (some fid) fp rnd hp cAt =
      ([if file.length > 10 * 1024 * 1024 then
          UploadRpc.saveBigFilePart fid fp ((file.length + partSize - 1) / partSize)
            ((file.drop (partSize * fp)).take partSize)
        else UploadRpc.saveFilePart fid fp ((file.drop (partSize * fp)).take partSize)],
       .noneResult) := by
  have hch : ¬ (List.take partSize (file.drop (partSize * fp)) = []) := by
    intro h
    have hlen := congrArg List.length h
    simp [List.length_take] at hlen
    have hd : (file.drop (partSize * fp)).length = file.length - partSize * fp :=
      List.length_drop _ _
    have hps : partSize = 524288 := rfl
    omega
  have hstep : save_file file (some fid) fp rnd hp cAt =
      save_file_loop fid (decide (file.length > 10 * 1024 * 1024)) true
        ((file.length + partSize - 1) / partSize) cAt hp
        (file.drop (partSize * fp)) fp none [] := by
    unfold save_file
    rw [if_neg h0, if_neg hmax]
    simp only [Option.isSome_some, Bool.not_true, Bool.and_false, reduceIte,
      Bool.false_eq_true, ite_false, if_neg hfid]
  rw [hstep]
  rw [save_file_loop.eq_def]
  simp only [hch, if_neg, ite_false, reduceIte, List.nil_append,
    decide_eq_true_eq]

theorem save_file_big_never_md5 (file : List Nat) (fp : Nat) (rnd : Int)
    (hp : Bool) (cAt : Nat → Bool)
    (hbig : file.length > 10 * 1024 * 1024)
    (hmax : ¬ file.length > 1500 * 1024 * 1024) :
    ∀ (i : Int) (p : Nat) (c : Md5State),
      (save_file file none fp rnd hp cAt).2 ≠ .inputFile i p c := by
  intro i p c
  have h0 : ¬ file.length = 0 := by omega
  have hstep : save_file file none fp rnd hp cAt =
      save_file_loop rnd (decide (file.length > 10 * 1024 * 1024)) false
        ((file.length + partSize - 1) / partSize) cAt hp
        (file.drop (partSize * fp)) fp
        (if (!decide (file.length > 10 * 1024 * 1024)) = true then some [] else none)
        [] := by
    unfold save_file
    rw [if_neg h0, if_neg hmax]
    simp only [Option.isSome_none, Bool.not_false, Bool.and_true, reduceIte]
  rw [hstep]
  rw [decide_eq_true hbig]
  exact save_file_loop_big_no_md5 rnd false _ cAt hp _ fp _ _ i p c

theorem save_file_small_md5_full (file : List Nat) (rnd : Int)
    (hp : Bool) (cAt : Nat → Bool)
    (h0 : ¬ file.length = 0)
    (hsmall : ¬ file.length > 10 * 1024 * 1024)
    (hnc : ∀ n, (hp && cAt n) = false) :
    (save_file file none 0 rnd hp cAt).2 =
      .inputFile rnd ((file.length + partSize - 1) / partSize) (chunksOfPart file) := by
  have hmax : ¬ file.length > 1500 * 1024 * 1024 := by omega
  have hstep : save_file file none 0 rnd hp cAt =
      save_file_loop rnd (decide (file.length > 10 * 1024 * 1024)) false
        ((file.length + partSize - 1) / partSize) cAt hp
        (file.drop (partSize * 0)) 0
        (if (!decide (file.length > 10 * 1024 * 1024)) = true then some [] else none)
        [] := by
    unfold save_file
    rw [if_neg h0, if_neg hmax]
    simp only [Option.isSome_none, Bool.not_false, Bool.and_true, reduceIte]
  rw [hstep]
  rw [decide_eq_false hsmall]
  simp only [Bool.not_false, reduceIte, Nat.mul_zero, List.drop_zero]
  have := save_file_loop_small_md5 rnd ((file.length + partSize - 1) / partSize) cAt hp hnc
    file 0 [] []
  simpa using this

/-- General form of upload cancellation: with a progress callback that
raises `StopTransmission` on its first call (after part 1 is enqueued),
`save_file` re-raises the signal to its caller. -/
theorem save_file_cancelled_result (file : List Nat) (rnd : Int)
    (hp : Bool) (cAt : Nat → Bool)
    (h0 : ¬ file.length = 0) (hmax : ¬ file.length > 1500 * 1024 * 1024)
    (hcan : (hp && cAt 1) = true) :
    (save_file file none 0 rnd hp cAt).2 = .stopTransmission := by
  have hch : ¬ (List.take partSize (file.drop (partSize * 0)) = []) := by
    rw [List.take_eq_nil_iff]
    rintro (h | h)
    · exact absurd h (by decide)
    · rw [List.drop_eq_nil_iff] at h
      omega
  have hstep : save_file file none 0 rnd hp cAt =
      save_file_loop rnd (decide (file.length > 10 * 1024 * 1024)) false
        ((file.length + partSize - 1) / partSize) cAt hp
        (file.drop (partSize * 0)) 0
        (if (!decide (file.length > 10 * 1024 * 1024)) = true then some [] else none)
        [] := by
    unfold save_file
    rw [if_neg h0, if_neg hmax]
    simp only [Option.isSome_none, Bool.not_false, Bool.and_true, reduceIte]
  rw [hstep]
  rw [save_file_loop.eq_def]
  simp only [hch, if_neg, ite_false, reduceIte, Bool.false_eq_true, Nat.zero_add,
    hcan, if_true]

/-- C9: a resume call (explicit `file_id`/`file_part`) enqueues exactly
one chunk — the 512 KiB slice at that part's offset — and returns
immediately with no result value (`None`) and no MD5; a small non-resumed
upload that runs to completion computes the MD5 incrementally over
exactly the file's chunks; a big upload never produces an MD5-carrying
result. -/
theorem save_file_resume_and_md5_policy
    (file file2 file3 : List Nat) (fid rnd rnd2 rnd3 : Int) (fp fp3 : Nat)
    (hp hp2 hp3 : Bool) (cAt cAt2 cAt3 : Nat → Bool)
    (h0 : ¬ file.length = 0) (hmax : ¬ file.length > 1500 * 1024 * 1024)
    (hfid : ¬ fid = 0) (hoff : partSize * fp < file.length)
    (h02 : ¬ file2.length = 0) (hsmall2 : ¬ file2.length > 10 * 1024 * 1024)
    (hnc2 : ∀ n, (hp2 && cAt2 n) = false)
    (hbig3 : file3.length > 10 * 1024 * 1024)
    (hmax3 : ¬ file3.length > 1500 * 1024 * 1024) :
    save_file file (some fid) fp rnd hp cAt =
      ([if file.length > 10 * 1024 * 1024 then
          UploadRpc.saveBigFilePart fid fp ((file.length + partSize - 1) / partSize)
            ((file.drop (partSize * fp)).take partSize)
        else UploadRpc.saveFilePart fid fp ((file.drop (partSize * fp)).take partSize)],
       .noneResult) ∧
    (save_file file2 none 0 rnd2 hp2 cAt2).2 =
      .inputFile rnd2 ((file2.length + partSize - 1) / partSize) (chunksOfPart file2) ∧
    (∀ (i : Int) (p : Nat) (c : Md5State),
      (save_file file3 none fp3 rnd3 hp3 cAt3).2 ≠ .inputFile i p c) :=
  ⟨save_file_resume_part file fid fp rnd hp cAt h0 hmax hfid hoff,
   save_file_small_md5_full file2 rnd2 hp2 cAt2 h02 hsmall2 hnc2,
   save_file_big_never_md5 file3 fp3 rnd3 hp3 cAt3 hbig3 hmax3⟩

/-- Witness for `save_file_resume_and_md5_policy`: resuming part 0 of the
3-byte file `[1, 2, 3]` with file id 5 enqueues exactly
`SaveFilePart(5, 0, [1, 2, 3])` and returns `None`. -/
theorem save_file_resume_and_md5_policy_witness :
    save_file [1, 2, 3] (some 5) 0 9 false (fun _ => false) =
      ([UploadRpc.saveFilePart 5 0 [1, 2, 3]], .noneResult) := by
  have h := save_file_resume_and_md5_policy [1, 2, 3] [4] (List.replicate 10485761 0)
    5 9 9 9 0 0 false false false (fun _ => false) (fun _ => false) (fun _ => false)
    (by decide) (by decide) (by decide) (by simp [partSize])
    (by decide) (by decide) (fun n => by simp)
    (by rw [List.length_replicate]; decide) (by rw [List.length_replicate]; decide)
  rw [h.1]
  rw [if_neg (by decide)]
  rw [show List.drop (partSize * 0) [1, 2, 3] = [1, 2, 3] by
    rw [Nat.mul_zero, List.drop_zero]]
  rw [show List.take partSize [1, 2, 3] = [1, 2, 3] from
    List.take_of_length_le (by decide)]

/-- C7: a CDN chunk whose decrypted content fails the server-hash
verification (`assert h.hash == sha256(...)`) makes the CDN loop abort
with an integrity failure, upon which `get_file` removes the partial temp
file and returns `""` (no downloaded file). -/
theorem cdn_hash_mismatch_aborts (decrypt : Nat → List Nat → List Nat)
    (sha : List Nat → List Nat) (hp : Bool) (cAt : Nat → Bool)
    (bytes : List Nat) (hashes : List CdnHashRec) (rest : List CdnEvent)
    (offset : Nat) (written : List Nat)
    (hbad : cdnVerify sha (decrypt offset bytes) hashes = false) :
    get_file_cdn_loop decrypt sha hp cAt (.chunk bytes hashes :: rest) offset written =
      .integrityFailure written ∧
    (∀ events w,
      get_file_cdn_loop decrypt sha hp cAt events 0 [] = .integrityFailure w →
      get_file decrypt sha hp cAt (.cdnRedirect events) = .empty) := by
  constructor
  · simp [get_file_cdn_loop, hbad]
  · intro events w h
    simp only [get_file]
    rw [h]

/-- Witness for `cdn_hash_mismatch_aborts`: a one-chunk CDN trace whose
server hash `[9]` disagrees with the digest `[0]` of the decrypted chunk
yields no file. -/
theorem cdn_hash_mismatch_aborts_witness :
    get_file (fun _ b => b) (fun _ => [0]) false (fun _ => false)
      (.cdnRedirect [.chunk [1] [⟨1, [9]⟩]]) = .empty := by
  have h := cdn_hash_mismatch_aborts (fun _ b => b) (fun _ => [0]) false
    (fun _ => false) [1] [⟨1, [9]⟩] [] 0 [] (by decide)
  exact h.2 [.chunk [1] [⟨1, [9]⟩]] [] h.1

/-- C3, counterexample: in the upload pipeline, cancellation IS surfaced
to the caller as an exception — `save_file` of the 3-byte file `[1, 2, 3]`
whose progress callback raises `StopTransmission` re-raises it
(`except Client.StopTransmission: raise`) instead of reporting an
empty/absent result. -/
theorem save_file_cancel_raises :
    (save_file [1, 2, 3] none 0 9 true (fun _ => true)).2 =
      .stopTransmission ∧
    SaveFileResult.stopTransmission ≠ SaveFileResult.noneResult := by
  refine ⟨?_, by decide⟩
  exact save_file_cancelled_result [1, 2, 3] 9 true (fun _ => true)
    (by decide) (by decide) (by decide)

/-- C3, amended: in the download pipeline (`get_file`), the
stop-transmission signal removes the in-progress temp file and makes the
operation return an empty result, never an exception (every `get_file`
outcome is a path or the empty result); in the upload pipeline
(`save_file`), the stop-transmission signal is re-raised to the caller —
it is distinguished from ordinary errors, which are logged and
swallowed. -/
theorem cancellation_cleanup (decrypt : Nat → List Nat → List Nat)
    (sha : List Nat → List Nat) (hp hpu : Bool) (cAt cAtu : Nat → Bool)
    (file : List Nat) (rnd : Int)
    (hne : ¬ file.length = 0) (hmaxu : ¬ file.length > 1500 * 1024 * 1024)
    (hcan : (hpu && cAtu 1) = true) :
    (∀ events w, get_file_plain_loop hp cAt events 0 [] = .cancelled w →
      get_file decrypt sha hp cAt (.file events) = .empty) ∧
    (∀ events w, get_file_cdn_loop decrypt sha hp cAt events 0 [] = .cancelled w →
      get_file decrypt sha hp cAt (.cdnRedirect events) = .empty) ∧
    (∀ fr, get_file decrypt sha hp cAt fr = .empty ∨
      ∃ w, get_file decrypt sha hp cAt fr = .path w) ∧
    (save_file file none 0 rnd hpu cAtu).2 = .stopTransmission := by
  refine ⟨?_, ?_, ?_, ?_⟩
  · intro events w h
    simp only [get_file]
    rw [h]
  · intro events w h
    simp only [get_file]
    rw [h]
  · intro fr
    cases fr with
    | file events =>
      simp only [get_file]
      cases h : get_file_plain_loop hp cAt events 0 [] <;> simp
    | cdnRedirect events =>
      simp only [get_file]
      cases h : get_file_cdn_loop decrypt sha hp cAt events 0 [] <;> simp
  · exact save_file_cancelled_result file rnd hpu cAtu hne hmaxu hcan

/-- Witness for `cancellation_cleanup`: a plain download of one 1-byte
chunk cancelled right after it returns no file. -/
theorem cancellation_cleanup_witness :
    get_file (fun _ b => b) (fun _ => []) true (fun _ => true)
      (.file [[1]]) = .empty := by
  have h := cancellation_cleanup (fun _ b => b) (fun _ => []) true true
    (fun _ => true) (fun _ => true) [1, 2, 3] 9
    (by decide) (by decide) (by decide)
  exact h.1 [[1]] [1] (by decide)

/-! ## `Client.start` failure restoration (client.py lines 272-360)

Source skeleton:
```
if self.is_started: raise ConnectionError("Client has already been started")
...
await self.session.start()
self.is_started = True
try:
    # authorization, save_session, takeout init, initial dialogs/contacts
except Exception as e:
    self.is_started = False
    await self.session.stop()
    raise e
self.updates_worker_task = asyncio.ensure_future(self.updates_worker())
for _ in range(Client.DOWNLOAD_WORKERS):
    self.download_worker_tasks.append(asyncio.ensure_future(self.download_worker()))
await self.dispatcher.start()
```
The authorization / takeout / initial-sync phase inside the `try` is the
oracle `innerPhase`; background tasks are started only after it
succeeds. -/

structure ClientState where
  is_started : Bool
  session_started : Bool
  updates_worker_running : Bool
  download_workers : Nat
  dispatcher_started : Bool
deriving DecidableEq

inductive StartError where
  | connectionError
  | phaseError (code : Nat)
deriving DecidableEq

/-- `Client.start`: returns the resulting client state and the propagated
exception, if any. -/
def client_start (st : ClientState) (innerPhase : Except StartError Unit)
    (downloadWorkers : Nat) : ClientState × Option StartError :=
  if st.is_started then (st, some .connectionError)
  else
    let st1 := { st with session_started := true, is_started := true }
    match innerPhase with
    | .error e =>
      ({ st1 with is_started := false, session_started := false }, some e)
    | .ok _ =>
      ({ st1 with updates_worker_running := true,
                  download_workers := downloadWorkers,
                  dispatcher_started := true }, none)

/-- C10: if `start` fails after the transport session was started (any
exception in the authorization / takeout / initial-sync phase), the
stopped state is restored before the exception propagates: `is_started`
is `False` again, the transport session is stopped, and no
updates-worker or download-worker background tasks are left running. -/
theorem start_failure_restores_stopped (st : ClientState) (e : StartError)
    (w : Nat) (hstopped : st = ⟨false, false, false, 0, false⟩) :
    client_start st (.error e) w = (⟨false, false, false, 0, false⟩, some e) := by
  subst hstopped
  rfl

/-- Witness for `start_failure_restores_stopped`: a stopped client whose
authorization phase raises error 400 ends up stopped with the error
propagated. -/
theorem start_failure_restores_stopped_witness :
    client_start ⟨false, false, false, 0, false⟩ (.error (.phaseError 400)) 4 =
      (⟨false, false, false, 0, false⟩, some (.phaseError 400)) :=
  start_failure_restores_stopped ⟨false, false, false, 0, false⟩
    (.phaseError 400) 4 rfl

end Pyrogram
